import Mathlib

/-!
Verification of the kychess search engine (src/src/search.rs, src/src/evaluation.rs)
against its natural-language specification.

The board representation and legal-move generator come from the external
chess crate and are treated as an abstract capability (`MoveOracle` below),
exactly as the specification prescribes.  Everything the engine itself
computes — evaluation, draw detection, the transposition table entries,
time management, negamax / quiescence / iterative deepening — is embedded
here as executable Lean definitions translated from the Rust source.

Modelling conventions:
* machine integers are `Nat` / `Int` (scores fit comfortably inside `i32`,
  so no wrap-around modelling is needed; `u8` ply arithmetic is bounded by
  the 255 guard, which is one of the verified claims);
* `std::time::Duration` values are exact nanosecond counts (`Nat`); the
  float multiplications `mul_f64(0.4)`, `mul_f64(1.5)`, `mul_f64(2.0)` are
  modelled by the exact rationals *2/5, *3/2, *2 on nanoseconds;
* a Rust `panic!` / `.unwrap()` on `None` is modelled by an `Option` result
  (`none` = the program panics);
* the recursion of `negamax`/`quiescence` is made structural with a fuel
  argument; fuel is always supplied as `256 - ply` (the engine enters at
  ply 0 with fuel 256), and since the functions return at `ply ≥ 255`
  before recursing, the fuel-zero branch is unreachable on those calls.
-/

namespace Kychess

/-- chess::Color. -/
inductive Color where
  | white
  | black
deriving DecidableEq, Repr

/-- The chess crate's `!color`. -/
def Color.flip : Color → Color
  | .white => .black
  | .black => .white

/-- chess::Piece. -/
inductive PieceTy where
  | pawn
  | knight
  | bishop
  | rook
  | queen
  | king
deriving DecidableEq, Repr

/-- chess::BoardStatus. -/
inductive BoardStatus where
  | ongoing
  | stalemate
  | checkmate
deriving DecidableEq, Repr

/-- chess::ChessMove: source and destination squares plus an optional
promotion piece.  Squares are indices 0..63 as in `Square::to_index`. -/
structure ChessMove where
  source : Fin 64
  dest : Fin 64
  promotion : Option PieceTy
deriving DecidableEq, Repr

instance : Inhabited ChessMove := ⟨⟨0, 0, none⟩⟩

/-- The observable content of a chess::Board: what piece (if any) stands on
each square (`piece_on` / `color_on`), the side to move, and the status
computed by the crate (`Board::status`).  The crate is an external
collaborator, so the status is carried as data rather than recomputed. -/
structure Board where
  pieceOn : Fin 64 → Option (PieceTy × Color)
  sideToMove : Color
  status : BoardStatus

/-- Number of squares holding piece `p` of colour `c`: the model of
`(board.pieces(p) & board.color_combined(c)).0.count_ones()`. -/
def countPiece (b : Board) (c : Color) (p : PieceTy) : Nat :=
  ∑ s : Fin 64, if b.pieceOn s = some (p, c) then 1 else 0

/-- Model of `board.pieces(p).0.count_ones()` (both colours): every set bit
of the piece bitboard belongs to exactly one of the two colour bitboards. -/
def totalPieceCount (b : Board) (p : PieceTy) : Nat :=
  countPiece b .white p + countPiece b .black p

/-- Model of `(board.pieces(Knight) | board.pieces(Bishop)) &
board.color_combined(c)).count_ones()`: the two piece bitboards are
disjoint, so the union's popcount is the sum. -/
def minorPieceCount (b : Board) (c : Color) : Nat :=
  countPiece b c .knight + countPiece b c .bishop

/-- MATE value / search infinity, `const INFINITY: i32 = 1_000_000`
(defined at the crate root; the literal also appears in src/src/_main.rs). -/
def INFINITY : Int := 1000000

/-! ## evaluation.rs -/

def PAWN_TABLE : List Int := [
  0, 0, 0, 0, 0, 0, 0, 0, 50, 50, 50, 50, 50, 50, 50, 50, 10, 10, 20, 30, 30, 20, 10, 10, 5, 5,
  10, 25, 25, 10, 5, 5, 0, 0, 0, 20, 20, 0, 0, 0, 5, -5, -10, 0, 0, -10, -5, 5, 5, 10, 10, -20,
  -20, 10, 10, 5, 0, 0, 0, 0, 0, 0, 0, 0]

def KNIGHT_TABLE : List Int := [
  -50, -40, -30, -30, -30, -30, -40, -50, -40, -20, 0, 0, 0, 0, -20, -40, -30, 0, 10, 15, 15, 10,
  0, -30, -30, 5, 15, 20, 20, 15, 5, -30, -30, 0, 15, 20, 20, 15, 0, -30, -30, 5, 10, 15, 15, 10,
  5, -30, -40, -20, 0, 5, 5, 0, -20, -40, -50, -40, -30, -30, -30, -30, -40, -50]

def BISHOP_TABLE : List Int := [
  -20, -10, -10, -10, -10, -10, -10, -20, -10, 0, 0, 0, 0, 0, 0, -10, -10, 0, 5, 10, 10, 5, 0,
  -10, -10, 5, 5, 10, 10, 5, 5, -10, -10, 0, 10, 10, 10, 10, 0, -10, -10, 10, 10, 10, 10, 10, 10,
  -10, -10, 5, 0, 0, 0, 0, 5, -10, -20, -10, -10, -10, -10, -10, -10, -20]

def ROOK_TABLE : List Int := [
  0, 0, 0, 0, 0, 0, 0, 0, 5, 10, 10, 10, 10, 10, 10, 5, -5, 0, 0, 0, 0, 0, 0, -5, -5, 0, 0, 0, 0,
  0, 0, -5, -5, 0, 0, 0, 0, 0, 0, -5, -5, 0, 0, 0, 0, 0, 0, -5, -5, 0, 0, 0, 0, 0, 0, -5, 0, 0,
  0, 5, 5, 0, 0, 0]

def QUEEN_TABLE : List Int := [
  -20, -10, -10, -5, -5, -10, -10, -20, -10, 0, 0, 0, 0, 0, 0, -10, -10, 0, 5, 5, 5, 5, 0, -10,
  -5, 0, 5, 5, 5, 5, 0, -5, 0, 0, 5, 5, 5, 5, 0, -5, -10, 5, 5, 5, 5, 5, 0, -10, -10, 0, 5, 0, 0,
  0, 0, -10, -20, -10, -10, -5, -5, -10, -10, -20]

def KING_TABLE : List Int := [
  -30, -40, -40, -50, -50, -40, -40, -30, -30, -40, -40, -50, -50, -40, -40, -30, -30, -40, -40,
  -50, -50, -40, -40, -30, -30, -40, -40, -50, -50, -40, -40, -30, -20, -30, -30, -40, -40, -30,
  -30, -20, -10, -20, -20, -20, -20, -20, -20, -10, 20, 20, 0, 0, 0, 0, 20, 20, 20, 30, 10, 0, 0,
  10, 30, 20]

def KING_TABLE_ENDGAME : List Int := [
  -50, -40, -30, -20, -20, -30, -40, -50, -30, -20, -10, 0, 0, -10, -20, -30, -30, -10, 20, 30,
  30, 20, -10, -30, -30, -10, 30, 40, 40, 30, -10, -30, -30, -10, 30, 40, 40, 30, -10, -30, -30,
  -10, 20, 30, 30, 20, -10, -30, -30, -30, 0, 0, 0, 0, -30, -30, -50, -30, -30, -30, -30, -30,
  -30, -50]

/-- evaluation.rs `fn is_endgame`. -/
def is_endgame (b : Board) : Bool :=
  if totalPieceCount b .queen = 0 then
    true
  else
    let white_queens := countPiece b .white .queen
    let black_queens := countPiece b .black .queen
    let white_endgame :=
      if white_queens = 1 then
        if minorPieceCount b .white ≤ 1 ∧ countPiece b .white .rook = 0 then true else false
      else false
    let black_endgame :=
      if black_queens = 1 then
        if minorPieceCount b .black ≤ 1 ∧ countPiece b .black .rook = 0 then true else false
      else false
    white_endgame && black_endgame

/-- evaluation.rs `fn piece_square`. -/
def piece_square (piece : PieceTy) (piece_colour : Color) (square : Fin 64)
    (is_endgame : Bool) : Int :=
  let table := match piece with
    | .pawn => PAWN_TABLE
    | .knight => KNIGHT_TABLE
    | .bishop => BISHOP_TABLE
    | .rook => ROOK_TABLE
    | .queen => QUEEN_TABLE
    | .king => if is_endgame then KING_TABLE_ENDGAME else KING_TABLE
  let index := match piece_colour with
    | .white => 63 - square.val
    | .black => square.val
  table.getD index 0

/-- One summand of the `for sq in 0..64` accumulation in
`evaluate_position`: the signed material-plus-positional score of the piece
standing on `s` (0 for an empty square). -/
def squareContribution (b : Board) (endgame : Bool) (s : Fin 64) : Int :=
  match b.pieceOn s with
  | none => 0
  | some (piece, piece_colour) =>
    let piece_score :=
      (match piece with
        | .pawn => 100
        | .knight => 320
        | .bishop => 330
        | .rook => 500
        | .queen => 900
        | .king => 20000) + piece_square piece piece_colour s endgame
    match piece_colour with
    | .white => piece_score
    | .black => -piece_score

/-- evaluation.rs `pub fn evaluate_position`. -/
def evaluate_position (board : Board) : Int :=
  let score := match board.status with
    | .ongoing =>
      let e := is_endgame board
      ∑ s : Fin 64, squareContribution board e s
    | .stalemate => 0
    | .checkmate => match board.sideToMove with
      | .white => -INFINITY
      | .black => INFINITY
  match board.sideToMove with
  | .white => score
  | .black => -score

/-! ## search.rs: data types -/

/-- uci.rs `pub struct GameTime`.  Durations are nanosecond counts. -/
structure GameTime where
  white_time : Option Nat
  black_time : Option Nat
  white_increment : Option Nat
  black_increment : Option Nat
  moves_to_go : Option Nat
deriving DecidableEq, Repr

/-- search.rs `pub enum SearchMode`. -/
inductive SearchMode where
  | Infinite
  | MoveTime
  | GameTime
deriving DecidableEq, Repr

/-- search.rs `pub struct SearchParams`. -/
structure SearchParams where
  search_mode : SearchMode
  move_time : Nat
  game_time : GameTime
deriving DecidableEq, Repr

/-- search.rs `pub enum SearchCommand`. -/
inductive SearchCommand where
  | Start (sp : SearchParams)
  | Stop
  | Quit
  | Nothing
deriving DecidableEq, Repr

/-- search.rs `enum SearchTerminate`. -/
inductive SearchTerminate where
  | Stop
  | Quit
  | Nothing
deriving DecidableEq, Repr

/-- search.rs `pub enum HashFlag` (the `Nothing` variant is the derived
default). -/
inductive HashFlag where
  | Nothing
  | Exact
  | Alpha
  | Beta
deriving DecidableEq, Repr

/-- search.rs `pub struct SearchData` (one transposition-table entry). -/
structure SearchData where
  depth : Nat
  eval : Int
  best_move : ChessMove
  flag : HashFlag
deriving DecidableEq, Repr

/-- The `#[derive(Default)]` value of `SearchData`. -/
def SearchData.default : SearchData :=
  ⟨0, 0, ⟨0, 0, none⟩, .Nothing⟩

instance : Inhabited SearchData := ⟨SearchData.default⟩

/-- search.rs `SearchData::create`: store an entry, shifting mate scores by
the current ply so that the stored distance is root-relative. -/
def SearchData.create (depth : Nat) (ply : Nat) (flag : HashFlag) (eval : Int)
    (best_move : ChessMove) : SearchData :=
  let v := eval
  let v :=
    if v > INFINITY / 2 then v + ply
    else if v < -(INFINITY / 2) then v - ply
    else v
  ⟨depth, v, best_move, flag⟩

/-- search.rs `SearchData::get`: probe an entry with the node's remaining
`depth`, `ply` and window. -/
def SearchData.get (self : SearchData) (depth : Nat) (ply : Nat) (alpha beta : Int) :
    Option (Int × ChessMove) :=
  let value : Option Int :=
    if self.depth > depth then
      match self.flag with
      | .Exact =>
        let v := self.eval
        let v :=
          if v > INFINITY / 2 then v - ply
          else if v < -(INFINITY / 2) then v + ply
          else v
        some v
      | .Alpha => if self.eval ≤ alpha then some alpha else none
      | .Beta => if self.eval ≥ beta then some beta else none
      | .Nothing => none
    else none
  value.map (fun v => (v, self.best_move))

/-- chess::CacheTable with bucket array and stored full hashes.  The crate
indexes with `hash & mask` where `mask = size - 1` and `size` is a power of
two, which equals `hash % size`. -/
structure CacheTable where
  size : Nat
  table : Nat → Nat × SearchData

/-- `CacheTable::new(size, default)`: every bucket holds hash 0 and the
default entry. -/
def CacheTable.new (size : Nat) (dflt : SearchData) : CacheTable :=
  ⟨size, fun _ => (0, dflt)⟩

/-- `CacheTable::get`: return the bucket's entry only when the stored full
hash matches. -/
def CacheTable.get (t : CacheTable) (hash : Nat) : Option SearchData :=
  let e := t.table (hash % t.size)
  if e.1 = hash then some e.2 else none

/-- `CacheTable::add`: unconditional overwrite of the bucket. -/
def CacheTable.add (t : CacheTable) (hash : Nat) (entry : SearchData) : CacheTable :=
  { t with table := Function.update t.table (hash % t.size) (hash, entry) }

/-- search.rs `struct SearchState`.  `start_time` is replaced by the
`elapsedAt` clock oracle in `SearchRefs`; `queue` models the contents of
the `control_rx` channel consumed by `try_recv`. -/
structure SearchState where
  seldepth : Nat
  nodes : Nat
  depth : Nat
  ply : Nat
  terminate : SearchTerminate
  allocated_time : Nat
  queue : List SearchCommand
deriving DecidableEq, Repr

/-- `SearchState::new()` (with an empty command channel). -/
def SearchState.new : SearchState :=
  ⟨0, 0, 0, 0, .Nothing, 0, []⟩

/-- The legal-move generator and board transition function of the chess
crate, the specification's "opaque capability": legal successor moves, the
successor position of a move, a stable content hash, and the
`checkers() != EMPTY` test. -/
structure MoveOracle where
  legalMoves : Board → List ChessMove
  makeMove : Board → ChessMove → Board
  getHash : Board → Nat
  inCheck : Board → Bool

/-- search.rs `pub struct SearchRefs`: the read-only parts.  The mutable
parts (`board`, `transposition_table`, `search_state`) are threaded
through the search functions explicitly; `elapsedAt k` is the wall-clock
time (ns) elapsed since `start_time` when the node counter reads `k`. -/
structure SearchRefs where
  oracle : MoveOracle
  search_params : SearchParams
  elapsedAt : Nat → Nat

/-! ## search.rs: draw detection -/

/-- search.rs `fn is_insufficient_material`. -/
def is_insufficient_material (board : Board) : Bool :=
  let white_pawn_count := countPiece board .white .pawn
  let black_pawn_count := countPiece board .black .pawn
  let white_bishop_count := countPiece board .white .bishop
  let black_bishop_count := countPiece board .black .bishop
  let white_knight_count := countPiece board .white .knight
  let black_knight_count := countPiece board .black .knight
  let white_rook_count := countPiece board .white .rook
  let black_rook_count := countPiece board .black .rook
  let white_queen_count := countPiece board .white .queen
  let black_queen_count := countPiece board .black .queen
  if white_pawn_count > 0 ∨ black_pawn_count > 0 ∨ white_rook_count > 0 ∨
      black_rook_count > 0 ∨ white_queen_count > 0 ∨ black_queen_count > 0 then
    false
  else if white_bishop_count ≤ 1 ∧ black_bishop_count = 0 then true
  else if white_bishop_count = 0 ∧ black_bishop_count ≤ 1 then true
  else if white_knight_count ≤ 1 ∧ black_knight_count = 0 then true
  else if white_knight_count = 0 ∧ black_knight_count ≤ 1 then true
  else false

/-- search.rs `fn is_draw`: the repetition and fifty-move checks are
commented out in the source; only insufficient material remains. -/
def is_draw (board : Board) : Bool :=
  is_insufficient_material board

/-! ## search.rs: time management and cancellation -/

/-- The threshold `allocated.mul_f64(overshoot_factor)` of
`check_terminate`'s GameTime arm, with the float factors 2.0 / 1.5 / 1.0
modelled exactly (durations in ns; 5 s and 30 s are the `critical_time`
and `ok_time` constants). -/
def gameTimeThreshold (allocated : Nat) : Nat :=
  if allocated > 30000000000 then allocated * 2
  else if allocated > 5000000000 then allocated * 3 / 2
  else allocated

/-- search.rs `fn check_terminate`: drain one pending command
(`try_recv`), then test the clock according to the search mode. -/
def check_terminate (refs : SearchRefs) (st : SearchState) : SearchState :=
  let popped : SearchCommand × List SearchCommand :=
    match st.queue with
    | [] => (.Nothing, [])
    | c :: rest => (c, rest)
  let st := { st with queue := popped.2 }
  let st :=
    match popped.1 with
    | .Stop => { st with terminate := .Stop }
    | .Quit => { st with terminate := .Quit }
    | .Start _ => st
    | .Nothing => st
  match refs.search_params.search_mode with
  | .Infinite => st
  | .MoveTime =>
    if refs.elapsedAt st.nodes > refs.search_params.move_time then
      { st with terminate := .Stop }
    else st
  | .GameTime =>
    let elapsed := refs.elapsedAt st.nodes
    let allocated := st.allocated_time
    if elapsed ≥ gameTimeThreshold allocated then { st with terminate := .Stop }
    else st

/-- The side-to-move clock field read by the GameTime block of
`iterative_deepening` (`game_time.white_time.unwrap()` / black). -/
def sideClock (gt : GameTime) : Color → Option Nat
  | .white => gt.white_time
  | .black => gt.black_time

/-- The side-to-move increment, `unwrap_or(0)`. -/
def sideIncrement (gt : GameTime) : Color → Nat
  | .white => gt.white_increment.getD 0
  | .black => gt.black_increment.getD 0

/-- `base_time` of the GameTime block: `clock` when `moves_to_go == 0`,
`clock / moves_to_go` when positive, `clock / 20` when absent. -/
def baseTime (gt : GameTime) (clock : Nat) : Nat :=
  match gt.moves_to_go with
  | some mtg => if mtg = 0 then clock else clock / mtg
  | none => clock / 20

/-- The GameTime allocation step at the top of `iterative_deepening`
(lines 92-129): `none` models a panic — either the side to move's clock
field is absent (`.unwrap()`), or `base_time + increment` underflows the
100 ms safety margin (`Duration` subtraction panics).  `mul_f64(0.4)` is
modelled exactly as `* 2 / 5` on nanoseconds. -/
def allocateTime (gt : GameTime) (stm : Color) : Option Nat :=
  match sideClock gt stm with
  | none => none
  | some clock =>
    let increment := sideIncrement gt stm
    let base_time := baseTime gt clock
    if base_time + increment < 100000000 then none
    else some ((base_time + increment - 100000000) * 2 / 5)

/-! ## search.rs: quiescence and negamax

The Rust functions mutate `refs.board`, `refs.search_state`,
`refs.transposition_table` and the caller's `pv` vector in place; the
embedding threads these through a result record.  Recursion is made
structural with a fuel argument (see the header comment). -/

/-- The values left in the mutable state when a search call returns:
its score, the search state, the shared board, the transposition table
and the caller's principal-variation vector. -/
structure SearchResult where
  score : Int
  state : SearchState
  board : Board
  tt : CacheTable
  pv : List ChessMove

/-- Whether `m` lands on a square of `color_combined(!side_to_move)` —
the capture test used for quiescence masking (and by the specification's
move-ordering description). -/
def isCaptureOn (b : Board) (m : ChessMove) : Bool :=
  match b.pieceOn m.dest with
  | some (_, c) => c = b.sideToMove.flip
  | none => false

/-- The move list Search::negamax's `for legal in MoveGen::new_legal`
loop iterates: the generator's output, in generator order, with no
reordering applied. -/
def negamaxExaminedMoves (oracle : MoveOracle) (b : Board) : List ChessMove :=
  oracle.legalMoves b

/-- The move list Search::quiescence iterates: the generator's output
restricted by `set_iterator_mask(color_combined(!side_to_move))` to
moves whose destination is occupied by the opponent. -/
def quiescenceExaminedMoves (oracle : MoveOracle) (b : Board) : List ChessMove :=
  (oracle.legalMoves b).filter (fun m => isCaptureOn b m)

/-- The `for legal in legal_moves` loop of Search::quiescence.
`child` is the recursive call (instantiated with `quiescence` at one
fuel step less); `old_board` is the value the shared board holds at loop
entry and is written back after every iteration (`*refs.board =
old_board`). -/
def quiescenceLoop
    (child : SearchState → Board → CacheTable → List ChessMove → Int → Int → SearchResult)
    (oracle : MoveOracle) (old_board : Board) :
    List ChessMove → SearchState → CacheTable → List ChessMove → Int → Int → SearchResult
  | [], st, tt, pv, alpha, _beta => ⟨alpha, st, old_board, tt, pv⟩
  | legal :: rest, st, tt, pv, alpha, beta =>
    let newBoard := oracle.makeMove old_board legal
    let st := { st with ply := st.ply + 1 }
    let st := if st.ply > st.seldepth then { st with seldepth := st.ply } else st
    let r := child st newBoard tt [] (-beta) (-alpha)
    let score := -r.score
    let st := { r.state with ply := r.state.ply - 1 }
    if score ≥ beta then ⟨beta, st, old_board, r.tt, pv⟩
    else if score > alpha then
      quiescenceLoop child oracle old_board rest st r.tt (legal :: r.pv) score beta
    else
      quiescenceLoop child oracle old_board rest st r.tt pv alpha beta

/-- search.rs `Search::quiescence`. -/
def quiescence : Nat → SearchRefs → SearchState → Board → CacheTable → List ChessMove →
    Int → Int → SearchResult
  | 0, _, st, board, tt, pv, _, _ => ⟨0, st, board, tt, pv⟩
  | fuel + 1, refs, st, board, tt, pv, alpha, beta =>
    let st := { st with nodes := st.nodes + 1 }
    let st := if Nat.land st.nodes 2047 = 0 then check_terminate refs st else st
    if st.terminate ≠ .Nothing then ⟨0, st, board, tt, pv⟩
    else if st.ply ≥ 255 then ⟨evaluate_position board, st, board, tt, pv⟩
    else
      let eval_score := evaluate_position board
      if eval_score ≥ beta then ⟨beta, st, board, tt, pv⟩
      else
        let alpha := if eval_score > alpha then eval_score else alpha
        quiescenceLoop (fun s b t p a bb => quiescence fuel refs s b t p a bb)
          refs.oracle board (quiescenceExaminedMoves refs.oracle board) st tt pv alpha beta

/-- Outcome of negamax's move loop: either an early `return beta`
(`cut`, carrying the whole result) or fall-through with the final
accumulators. -/
inductive LoopOut where
  | cut (r : SearchResult)
  | fin (st : SearchState) (tt : CacheTable) (pv : List ChessMove) (alpha : Int)
      (best_move : Option ChessMove) (flag : HashFlag) (count : Nat)

/-- The body of negamax's `if !is_draw(refs) { ... }` block for one
candidate move: score 0 for a drawn successor, otherwise the recursive
search — a null-window probe first once some earlier move raised alpha
(`do_pvs`), re-searched with the full window when the probe lands
strictly inside `(alpha, beta)`.  Returns the score together with the
state, table and node PV left by the recursion. -/
def negamaxStep
    (child : SearchState → Board → CacheTable → List ChessMove → Int → Int → SearchResult)
    (newBoard : Board) (st : SearchState) (tt : CacheTable) (alpha beta : Int)
    (do_pvs : Bool) : Int × SearchState × CacheTable × List ChessMove :=
  if is_draw newBoard then (0, st, tt, [])
  else if do_pvs then
    let r1 := child st newBoard tt [] (-alpha - 1) (-alpha)
    let s1 := -r1.score
    if s1 > alpha ∧ s1 < beta then
      let r2 := child r1.state r1.board r1.tt r1.pv (-beta) (-alpha)
      (-r2.score, r2.state, r2.tt, r2.pv)
    else (s1, r1.state, r1.tt, r1.pv)
  else
    let r := child st newBoard tt [] (-beta) (-alpha)
    (-r.score, r.state, r.tt, r.pv)

/-- The `for legal in MoveGen::new_legal(refs.board)` loop of
Search::negamax.  `child` is the recursive call (instantiated with
`negamax` at one fuel step less and remaining depth `depth - 1`);
`old_pos` is the board at loop entry, restored after each move.  The
`best_move.unwrap()` in the beta-cutoff store is modelled with `getD`
(on that path an update to `some` has always just happened). -/
def negamaxLoop
    (child : SearchState → Board → CacheTable → List ChessMove → Int → Int → SearchResult)
    (oracle : MoveOracle) (old_pos : Board) (position_hash : Nat) (depth : Nat) :
    List ChessMove → SearchState → CacheTable → List ChessMove → Int → Int →
    Int → Option ChessMove → HashFlag → Bool → Nat → LoopOut
  | [] => fun st tt pv alpha _beta _best_eval best_move flag _do_pvs count =>
    .fin st tt pv alpha best_move flag count
  | legal :: rest => fun st tt pv alpha beta best_eval_score best_move flag do_pvs count =>
    let newBoard := oracle.makeMove old_pos legal
    let count := count + 1
    let st := { st with ply := st.ply + 1 }
    let st := if st.ply > st.seldepth then { st with seldepth := st.ply } else st
    let stepped := negamaxStep child newBoard st tt alpha beta do_pvs
    let eval_score := stepped.1
    let node_pv := stepped.2.2.2
    let st := { stepped.2.1 with ply := stepped.2.1.ply - 1 }
    let tt := stepped.2.2.1
    let updated : Int × Option ChessMove :=
      if eval_score > best_eval_score then (eval_score, some legal)
      else (best_eval_score, best_move)
    let best_eval_score := updated.1
    let best_move := updated.2
    if eval_score ≥ beta then
      .cut ⟨beta, st, old_pos,
        tt.add position_hash
          (SearchData.create depth st.ply .Beta beta (best_move.getD default)), pv⟩
    else if eval_score > alpha then
      negamaxLoop child oracle old_pos position_hash depth rest st tt
        (legal :: node_pv) eval_score beta best_eval_score best_move .Exact true count
    else
      negamaxLoop child oracle old_pos position_hash depth rest st tt
        pv alpha beta best_eval_score best_move flag do_pvs count

/-- The node-expansion part of Search::negamax (everything from move
generation to the final store), shared by the no-TT-hit and
TT-hit-at-root paths. -/
def negamaxExpand
    (child : SearchState → Board → CacheTable → List ChessMove → Int → Int → SearchResult)
    (oracle : MoveOracle) (st : SearchState) (board : Board) (tt : CacheTable)
    (pv : List ChessMove) (depth : Nat) (alpha beta : Int) (is_check : Bool)
    (position_hash : Nat) : SearchResult :=
  match negamaxLoop child oracle board position_hash depth
      (negamaxExaminedMoves oracle board) st tt pv alpha beta
      (-INFINITY - 1) none .Alpha false 0 with
  | .cut r => r
  | .fin st tt pv alpha best_move flag count =>
    if count = 0 then
      if is_check then ⟨-INFINITY + st.ply, st, board, tt, pv⟩
      else ⟨0, st, board, tt, pv⟩
    else
      ⟨alpha, st, board,
        tt.add position_hash
          (SearchData.create depth st.ply flag alpha (best_move.getD default)), pv⟩

/-- search.rs `Search::negamax`. -/
def negamax : Nat → SearchRefs → SearchState → Board → CacheTable → List ChessMove →
    Nat → Int → Int → SearchResult
  | 0, _, st, board, tt, pv, _, _, _ => ⟨0, st, board, tt, pv⟩
  | fuel + 1, refs, st, board, tt, pv, depth, alpha, beta =>
    let is_root := st.ply = 0
    let st := if Nat.land st.nodes 2047 = 0 then check_terminate refs st else st
    if st.terminate ≠ .Nothing then ⟨0, st, board, tt, pv⟩
    else if st.ply ≥ 255 then ⟨evaluate_position board, st, board, tt, pv⟩
    else
      let is_check := refs.oracle.inCheck board
      let depth := if is_check then depth + 1 else depth
      if depth = 0 then quiescence (fuel + 1) refs st board tt pv alpha beta
      else
        let st := { st with nodes := st.nodes + 1 }
        let position_hash := refs.oracle.getHash board
        let child := fun s b t p a bb => negamax fuel refs s b t p (depth - 1) a bb
        match (tt.get position_hash).bind (fun e => e.get depth st.ply alpha beta) with
        | some (tt_value, _) =>
          if is_root then
            negamaxExpand child refs.oracle st board tt pv depth alpha beta is_check
              position_hash
          else ⟨tt_value, st, board, tt, pv⟩
        | none =>
          negamaxExpand child refs.oracle st board tt pv depth alpha beta is_check
            position_hash

/-! ## search.rs: iterative deepening and the worker cycle -/

/-- What `Search::iterative_deepening` leaves behind.  `best_move = none`
models the panic of the final `best_move.unwrap()` (line 182): no depth-1
iteration ever produced a principal variation. -/
structure IDResult where
  best_move : Option ChessMove
  terminate : SearchTerminate
  state : SearchState
  board : Board
  tt : CacheTable

/-- The `while (depth < 255) && !stop` loop of `iterative_deepening`.
`best_move` is updated from the root PV after every iteration that ends
with the terminate flag clear; the per-depth `SearchSummary` side effect
is not modelled.  The loop runs at most 255 iterations (depth grows on
every non-terminated iteration and a terminated iteration sets `stop`),
so fuel 256 is never exhausted. -/
def idLoop (refs : SearchRefs) :
    Nat → Nat → Bool → Option ChessMove → List ChessMove → SearchState → Board →
    CacheTable → IDResult
  | 0, _depth, _stop, best_move, _root_pv, st, board, tt =>
    ⟨best_move, st.terminate, st, board, tt⟩
  | fuel + 1, depth, stop, best_move, root_pv, st, board, tt =>
    if depth < 255 ∧ stop = false then
      let st := { st with depth := depth }
      let r := negamax 256 refs st board tt root_pv depth (-INFINITY) INFINITY
      let continuing : Option ChessMove × Nat :=
        if r.state.terminate = .Nothing then
          (match r.pv with
            | [] => best_move
            | m :: _ => some m,
           depth + 1)
        else (best_move, depth)
      let stop := if r.state.terminate ≠ .Nothing then true else stop
      idLoop refs fuel continuing.2 stop continuing.1 r.pv r.state r.board r.tt
    else ⟨best_move, st.terminate, st, board, tt⟩

/-- search.rs `Search::iterative_deepening`.  In GameTime mode the
allocation of lines 92-129 runs first (its possible panics are analysed
through `allocateTime`; here a panic-free run is assumed and modelled
with `getD 0`). -/
def iterative_deepening (refs : SearchRefs) (st : SearchState) (board : Board)
    (tt : CacheTable) : IDResult :=
  let st :=
    if refs.search_params.search_mode = .GameTime then
      { st with allocated_time :=
          (allocateTime refs.search_params.game_time board.sideToMove).getD 0 }
    else st
  idLoop refs 256 1 false none [] st board tt

/-- The transposition table the worker thread builds for a search cycle:
`CacheTable::new(1 << 21, SearchData::default())`, constructed anew
inside the command loop every time a cycle starts (search.rs line 51). -/
def cycle_transposition_table : CacheTable :=
  CacheTable.new (1 <<< 21) SearchData.default

/-- One search cycle as run by the worker thread of `Search::init`
(lines 45-57): fresh search state, fresh transposition table, then
`iterative_deepening`.  `queue` is the remaining contents of the command
channel when the cycle starts. -/
def runCycle (oracle : MoveOracle) (elapsedAt : Nat → Nat) (sp : SearchParams)
    (board : Board) (queue : List SearchCommand) : IDResult :=
  iterative_deepening ⟨oracle, sp, elapsedAt⟩ { SearchState.new with queue := queue }
    board cycle_transposition_table

/-! ## Specification-side definitions

These follow the specification's words (not the source) and exist to be
compared with the source-derived definitions above. -/

/-- The colour-flipped mirror P′ of a position P: colours swapped, squares
reflected by the same `63 - index` involution the evaluator uses for its
White tables, side to move flipped, status preserved. -/
def mirrorBoard (b : Board) : Board :=
  ⟨fun s => (b.pieceOn s.rev).map (fun pc => (pc.1, pc.2.flip)),
   b.sideToMove.flip, b.status⟩

/-- Modelled from the spec: the insufficient-material draw condition as
the specification states it — "no pawns/rooks/queens on board, and each
side has ≤ 1 minor piece with the other side having none of that minor
type". -/
def specInsufficientMaterial (b : Board) : Prop :=
  totalPieceCount b .pawn = 0 ∧ totalPieceCount b .rook = 0 ∧
  totalPieceCount b .queen = 0 ∧
  minorPieceCount b .white ≤ 1 ∧ minorPieceCount b .black ≤ 1 ∧
  (countPiece b .white .bishop = 0 ∨ countPiece b .black .bishop = 0) ∧
  (countPiece b .white .knight = 0 ∨ countPiece b .black .knight = 0)

instance (b : Board) : Decidable (specInsufficientMaterial b) := by
  unfold specInsufficientMaterial; infer_instance

/-- Modelled from the spec: a history entry `{ hash, irreversible }`
(`irreversible = true` for a pawn move or capture) and the threefold
repetition test — the current hash appears at least 3 times in the
recorded history. -/
def specThreefold (hash : Nat) (history : List (Nat × Bool)) : Prop :=
  3 ≤ (history.filter (fun e => e.1 = hash)).length

instance (h : Nat) (hist : List (Nat × Bool)) : Decidable (specThreefold h hist) := by
  unfold specThreefold; infer_instance

/-- Modelled from the spec: the fifty-move test — at least 100
consecutive most-recent plies with no pawn move or capture. -/
def specFiftyMove (history : List (Nat × Bool)) : Prop :=
  100 ≤ (history.reverse.takeWhile (fun e => e.2 = false)).length

instance (hist : List (Nat × Bool)) : Decidable (specFiftyMove hist) := by
  unfold specFiftyMove; infer_instance

/-- Modelled from the spec: the claimed draw test for the position after
a candidate move — insufficient material, threefold repetition of its
hash, or the fifty-move rule. -/
def specDraw (b : Board) (hash : Nat) (history : List (Nat × Bool)) : Prop :=
  specInsufficientMaterial b ∨ specThreefold hash history ∨ specFiftyMove history

instance (b : Board) (h : Nat) (hist : List (Nat × Bool)) : Decidable (specDraw b h hist) := by
  unfold specDraw; infer_instance

/-- Modelled from the spec: the claimed move ordering — the previous
iteration's PV move for the node first (when present and still legal),
then captures in generator order, then the remaining moves in generator
order. -/
def specOrderedMoves (pvMove : Option ChessMove) (b : Board)
    (moves : List ChessMove) : List ChessMove :=
  let pvFirst : List ChessMove :=
    match pvMove with
    | some m => if moves.contains m then [m] else []
    | none => []
  let rest : List ChessMove :=
    match pvMove with
    | some m => if moves.contains m then moves.erase m else moves
    | none => moves
  pvFirst ++ rest.filter (fun m => isCaptureOn b m) ++
    rest.filter (fun m => ¬ isCaptureOn b m)

/-! ## Concrete example inputs -/

/-- White king a1, white bishop b1, white knights c1 and d1, black king
e3: three white minor pieces, no pawns/rooks/queens. -/
def boardKBNNvK : Board :=
  ⟨fun s =>
    if s.val = 0 then some (.king, .white)
    else if s.val = 1 then some (.bishop, .white)
    else if s.val = 2 then some (.knight, .white)
    else if s.val = 3 then some (.knight, .white)
    else if s.val = 20 then some (.king, .black)
    else none, .white, .ongoing⟩

/-- White king a1, white knight b1, black king a8, White to move. -/
def boardKNvK : Board :=
  ⟨fun s =>
    if s.val = 0 then some (.king, .white)
    else if s.val = 1 then some (.knight, .white)
    else if s.val = 56 then some (.king, .black)
    else none, .white, .ongoing⟩

/-- A position with a single black pawn on a2 (square 8), White to move:
a move to square 8 is a capture, a move to square 16 is not. -/
def boardWithTarget : Board :=
  ⟨fun s => if s.val = 8 then some (.pawn, .black) else none, .white, .ongoing⟩

def quietMove : ChessMove := ⟨0, 16, none⟩

def captureMove : ChessMove := ⟨0, 8, none⟩

/-- A concrete move generator that yields the quiet move before the
capture for `boardWithTarget`. -/
def exampleOracle : MoveOracle :=
  ⟨fun _ => [quietMove, captureMove], fun b _ => b, fun _ => 1, fun _ => false⟩

/-- Search refs with the example oracle, Infinite mode, and a clock that
never advances. -/
def exampleRefsInfinite : SearchRefs :=
  ⟨exampleOracle, ⟨.Infinite, 0, ⟨none, none, none, none, none⟩⟩, fun _ => 0⟩

/-! ## Further concrete fixtures for witnesses -/

/-- Search refs in GameTime mode whose clock always reads 10 s. -/
def exampleRefsGameTime : SearchRefs :=
  ⟨exampleOracle, ⟨.GameTime, 0, ⟨some 1000000000, none, none, none, none⟩⟩,
   fun _ => 10000000000⟩

/-- A search state with an allocated budget of 6 s (in the 1.5x overshoot
band). -/
def exampleStateGameTime : SearchState :=
  { SearchState.new with allocated_time := 6000000000 }

/-- A state already at the ply ceiling, one node searched. -/
def exampleStateCeiling : SearchState :=
  { SearchState.new with ply := 255, nodes := 1 }

/-- A game clock: 2 s base, 100 ms increment, 10 moves to go. -/
def exampleGameTime : GameTime :=
  ⟨some 2000000000, none, some 100000000, none, some 10⟩

/-- Restoration statement for a loop outcome: an early cutoff hands back
the original board and ply; a fall-through hands back the original ply. -/
def LoopOutPres (o : LoopOut) (old : Board) (ply : Nat) : Prop :=
  match o with
  | .cut r => r.board = old ∧ r.state.ply = ply
  | .fin st _ _ _ _ _ _ => st.ply = ply

/-- Bound statement for a loop outcome. -/
def LoopOutSel (o : LoopOut) : Prop :=
  match o with
  | .cut r => r.state.seldepth ≤ 255
  | .fin st _ _ _ _ _ _ => st.seldepth ≤ 255


/-! ## Lemmas: the make/undo and ply-restore discipline -/

theorem Color.flip_flip (c : Color) : c.flip.flip = c := by cases c <;> rfl

theorem check_terminate_ply (refs : SearchRefs) (st : SearchState) :
    (check_terminate refs st).ply = st.ply := by
  unfold check_terminate
  rcases st.queue with _ | ⟨c, rest⟩ <;> try cases c
  all_goals cases refs.search_params.search_mode <;> simp <;> split_ifs <;> simp

theorem check_terminate_seldepth (refs : SearchRefs) (st : SearchState) :
    (check_terminate refs st).seldepth = st.seldepth := by
  unfold check_terminate
  rcases st.queue with _ | ⟨c, rest⟩ <;> try cases c
  all_goals cases refs.search_params.search_mode <;> simp <;> split_ifs <;> simp

theorem negamaxStep_ply (child)
    (hc : ∀ s b t p a bb, (child s b t p a bb).state.ply = s.ply) :
    ∀ (nb : Board) (st : SearchState) (tt : CacheTable) (alpha beta : Int) (dp : Bool),
      (negamaxStep child nb st tt alpha beta dp).2.1.ply = st.ply := by
  intro nb st tt alpha beta dp
  unfold negamaxStep
  split_ifs <;> dsimp only <;> (try split_ifs) <;> simp [hc]

section
attribute [local irreducible] is_draw evaluate_position countPiece is_endgame negamaxStep
  check_terminate

theorem quiescenceLoop_pres (child) (oracle : MoveOracle) (old_board : Board)
    (hc : ∀ s b t p a bb, (child s b t p a bb).state.ply = s.ply) :
    ∀ (ms : List ChessMove) (st : SearchState) (tt : CacheTable) (pv : List ChessMove)
      (alpha beta : Int),
      (quiescenceLoop child oracle old_board ms st tt pv alpha beta).board = old_board ∧
      (quiescenceLoop child oracle old_board ms st tt pv alpha beta).state.ply = st.ply := by
  intro ms
  induction ms with
  | nil => intro st tt pv alpha beta; simp [quiescenceLoop]
  | cons legal rest ih =>
    intro st tt pv alpha beta
    simp only [quiescenceLoop]
    split_ifs <;> simp [ih, hc]

theorem quiescence_pres (fuel : Nat) (refs : SearchRefs) :
    ∀ (st : SearchState) (board : Board) (tt : CacheTable) (pv : List ChessMove)
      (alpha beta : Int),
      (quiescence fuel refs st board tt pv alpha beta).board = board ∧
      (quiescence fuel refs st board tt pv alpha beta).state.ply = st.ply := by
  induction fuel with
  | zero => intro st board tt pv alpha beta; simp [quiescence]
  | succ fuel ih =>
    intro st board tt pv alpha beta
    simp only [quiescence]
    split_ifs <;>
      simp [check_terminate_ply,
        quiescenceLoop_pres _ _ _ (fun s b t p a bb => (ih s b t p a bb).2)]

theorem negamaxLoop_pres (child) (oracle : MoveOracle) (old_pos : Board)
    (position_hash depth : Nat)
    (hc : ∀ s b t p a bb, (child s b t p a bb).state.ply = s.ply) :
    ∀ (ms : List ChessMove) (st : SearchState) (tt : CacheTable) (pv : List ChessMove)
      (alpha beta best : Int) (bm : Option ChessMove) (flag : HashFlag) (dp : Bool)
      (count : Nat),
      LoopOutPres (negamaxLoop child oracle old_pos position_hash depth ms st tt pv
        alpha beta best bm flag dp count) old_pos st.ply := by
  intro ms
  induction ms with
  | nil => intro st tt pv alpha beta best bm flag dp count; simp [negamaxLoop, LoopOutPres]
  | cons legal rest ih =>
    intro st tt pv alpha beta best bm flag dp count
    have ih2 : ∀ (st2 : SearchState) (tt2 : CacheTable) (pv2 : List ChessMove)
        (a2 b2 be2 : Int) (bm2 : Option ChessMove) (fl2 : HashFlag) (dp2 : Bool)
        (c2 : Nat), st2.ply = st.ply →
        LoopOutPres (negamaxLoop child oracle old_pos position_hash depth rest st2 tt2
          pv2 a2 b2 be2 bm2 fl2 dp2 c2) old_pos st.ply := by
      intro st2 tt2 pv2 a2 b2 be2 bm2 fl2 dp2 c2 h
      rw [← h]
      exact ih st2 tt2 pv2 a2 b2 be2 bm2 fl2 dp2 c2
    rw [negamaxLoop]
    beta_reduce
    dsimp only
    split_ifs <;>
      first
        | (simp [LoopOutPres, negamaxStep_ply child hc]; done)
        | (simp only [LoopOutPres, negamaxStep_ply child hc]
           exact ih2 _ _ _ _ _ _ _ _ _ _ rfl)

theorem negamaxExpand_pres (child)
    (hc : ∀ s b t p a bb, (child s b t p a bb).state.ply = s.ply) :
    ∀ (oracle : MoveOracle) (st : SearchState) (board : Board) (tt : CacheTable)
      (pv : List ChessMove) (depth : Nat) (alpha beta : Int) (is_check : Bool)
      (position_hash : Nat),
      (negamaxExpand child oracle st board tt pv depth alpha beta is_check
        position_hash).board = board ∧
      (negamaxExpand child oracle st board tt pv depth alpha beta is_check
        position_hash).state.ply = st.ply := by
  intro oracle st board tt pv depth alpha beta is_check position_hash
  unfold negamaxExpand
  have h := negamaxLoop_pres child oracle board position_hash depth hc
    (negamaxExaminedMoves oracle board) st tt pv alpha beta (-INFINITY - 1) none
    .Alpha false 0
  rcases hL : negamaxLoop child oracle board position_hash depth
      (negamaxExaminedMoves oracle board) st tt pv alpha beta (-INFINITY - 1) none
      .Alpha false 0 with r | ⟨st2, tt2, pv2, a2, bm2, fl2, c2⟩
  · rw [hL] at h
    simp only [LoopOutPres] at h
    simp [h]
  · rw [hL] at h
    simp only [LoopOutPres] at h
    split_ifs <;> simp [h, apply_ite]

theorem negamax_pres (fuel : Nat) (refs : SearchRefs) :
    ∀ (st : SearchState) (board : Board) (tt : CacheTable) (pv : List ChessMove)
      (depth : Nat) (alpha beta : Int),
      (negamax fuel refs st board tt pv depth alpha beta).board = board ∧
      (negamax fuel refs st board tt pv depth alpha beta).state.ply = st.ply := by
  induction fuel with
  | zero => intro st board tt pv depth alpha beta; simp [negamax]
  | succ fuel ih =>
    intro st board tt pv depth alpha beta
    have hcd : ∀ (d : Nat) (s : SearchState) b t p a bb,
        ((fun s b t p a bb => negamax fuel refs s b t p d a bb) s b t p a bb).state.ply
          = s.ply :=
      fun d s b t p a bb => (ih s b t p d a bb).2
    rw [negamax]
    dsimp only
    split_ifs <;>
      first
        | (simp [check_terminate_ply]; done)
        | (simp [quiescence_pres, check_terminate_ply]; done)
        | (split <;>
            first
              | (simp [check_terminate_ply]; done)
              | (exact ⟨(negamaxExpand_pres _ (hcd _) _ _ _ _ _ _ _ _ _ _).1,
                  by rw [(negamaxExpand_pres _ (hcd _) _ _ _ _ _ _ _ _ _ _).2]
                     try simp [check_terminate_ply]⟩))

end

end Kychess

namespace Kychess

section
attribute [local irreducible] is_draw evaluate_position countPiece is_endgame negamaxStep
  check_terminate

theorem quiescenceLoop_seldepth (child) (oracle : MoveOracle) (old_board : Board)
    (hcp : ∀ s b t p a bb, (child s b t p a bb).state.ply = s.ply)
    (hcs : ∀ s b t p a bb, s.ply ≤ 255 → s.seldepth ≤ 255 →
      (child s b t p a bb).state.seldepth ≤ 255) :
    ∀ (ms : List ChessMove) (st : SearchState) (tt : CacheTable) (pv : List ChessMove)
      (alpha beta : Int), st.ply ≤ 254 → st.seldepth ≤ 255 →
      (quiescenceLoop child oracle old_board ms st tt pv alpha beta).state.seldepth ≤ 255 := by
  intro ms
  induction ms with
  | nil => intro st tt pv alpha beta h1 h2; simpa [quiescenceLoop] using h2
  | cons legal rest ih =>
    intro st tt pv alpha beta h1 h2
    simp only [quiescenceLoop]
    split_ifs with hsel hcut <;>
      first
        | (exact hcs _ _ _ _ _ _ (by simp; omega) (by simp; omega))
        | (refine ih _ _ _ _ _ ?_ ?_
           · simp [hcp]; omega
           · exact hcs _ _ _ _ _ _ (by simp; omega) (by simp; omega))

end

section
attribute [local irreducible] is_draw evaluate_position countPiece is_endgame negamaxStep
  check_terminate quiescenceLoop quiescence negamaxLoop

theorem quiescence_seldepth (fuel : Nat) (refs : SearchRefs) :
    ∀ (st : SearchState) (board : Board) (tt : CacheTable) (pv : List ChessMove)
      (alpha beta : Int), st.ply ≤ 255 → st.seldepth ≤ 255 →
      (quiescence fuel refs st board tt pv alpha beta).state.seldepth ≤ 255 := by
  induction fuel with
  | zero => intro st board tt pv alpha beta h1 h2; simpa [quiescence] using h2
  | succ fuel ih =>
    intro st board tt pv alpha beta h1 h2
    simp only [quiescence]
    split_ifs <;>
      first
        | (simp [check_terminate_seldepth]; omega)
        | (refine quiescenceLoop_seldepth _ _ _
            (fun s b t p a bb => (quiescence_pres fuel refs s b t p a bb).2)
            (fun s b t p a bb hp hs => ih s b t p a bb hp hs) _ _ _ _ _ _ ?_ ?_ <;>
           simp [check_terminate_ply, check_terminate_seldepth] at * <;> omega)

theorem negamaxStep_seldepth (child)
    (hcp : ∀ s b t p a bb, (child s b t p a bb).state.ply = s.ply)
    (hcs : ∀ s b t p a bb, s.ply ≤ 255 → s.seldepth ≤ 255 →
      (child s b t p a bb).state.seldepth ≤ 255) :
    ∀ (nb : Board) (st : SearchState) (tt : CacheTable) (alpha beta : Int) (dp : Bool),
      st.ply ≤ 255 → st.seldepth ≤ 255 →
      (negamaxStep child nb st tt alpha beta dp).2.1.seldepth ≤ 255 := by
  intro nb st tt alpha beta dp h1 h2
  unfold negamaxStep
  split_ifs <;> dsimp only <;> (try split_ifs) <;>
    first
      | exact h2
      | exact hcs _ _ _ _ _ _ h1 h2
      | exact hcs _ _ _ _ _ _ (by rw [hcp]; exact h1) (hcs _ _ _ _ _ _ h1 h2)


theorem negamaxLoop_seldepth (child) (oracle : MoveOracle) (old_pos : Board)
    (position_hash depth : Nat)
    (hcp : ∀ s b t p a bb, (child s b t p a bb).state.ply = s.ply)
    (hcs : ∀ s b t p a bb, s.ply ≤ 255 → s.seldepth ≤ 255 →
      (child s b t p a bb).state.seldepth ≤ 255) :
    ∀ (ms : List ChessMove) (st : SearchState) (tt : CacheTable) (pv : List ChessMove)
      (alpha beta best : Int) (bm : Option ChessMove) (flag : HashFlag) (dp : Bool)
      (count : Nat), st.ply ≤ 254 → st.seldepth ≤ 255 →
      LoopOutSel (negamaxLoop child oracle old_pos position_hash depth ms st tt pv
        alpha beta best bm flag dp count) := by
  intro ms
  induction ms with
  | nil =>
    intro st tt pv alpha beta best bm flag dp count h1 h2
    simpa [negamaxLoop, LoopOutSel] using h2
  | cons legal rest ih =>
    intro st tt pv alpha beta best bm flag dp count h1 h2
    rw [negamaxLoop]
    beta_reduce
    dsimp only
    split_ifs <;>
      first
        | (simp only [LoopOutSel]
           exact negamaxStep_seldepth child hcp hcs _ _ _ _ _ _ (by simp; omega)
             (by simp; omega))
        | (refine ih _ _ _ _ _ _ _ _ _ _ ?_ ?_
           · simp [negamaxStep_ply child hcp]; omega
           · exact negamaxStep_seldepth child hcp hcs _ _ _ _ _ _ (by simp; omega)
               (by simp; omega))

theorem negamaxExpand_seldepth (child)
    (hcp : ∀ s b t p a bb, (child s b t p a bb).state.ply = s.ply)
    (hcs : ∀ s b t p a bb, s.ply ≤ 255 → s.seldepth ≤ 255 →
      (child s b t p a bb).state.seldepth ≤ 255) :
    ∀ (oracle : MoveOracle) (st : SearchState) (board : Board) (tt : CacheTable)
      (pv : List ChessMove) (depth : Nat) (alpha beta : Int) (is_check : Bool)
      (position_hash : Nat), st.ply ≤ 254 → st.seldepth ≤ 255 →
      (negamaxExpand child oracle st board tt pv depth alpha beta is_check
        position_hash).state.seldepth ≤ 255 := by
  intro oracle st board tt pv depth alpha beta is_check position_hash h1 h2
  unfold negamaxExpand
  have h := negamaxLoop_seldepth child oracle board position_hash depth hcp hcs
    (negamaxExaminedMoves oracle board) st tt pv alpha beta (-INFINITY - 1) none
    .Alpha false 0 h1 h2
  rcases hL : negamaxLoop child oracle board position_hash depth
      (negamaxExaminedMoves oracle board) st tt pv alpha beta (-INFINITY - 1) none
      .Alpha false 0 with r | ⟨st2, tt2, pv2, a2, bm2, fl2, c2⟩
  · rw [hL] at h
    simp only [LoopOutSel] at h
    simpa using h
  · rw [hL] at h
    simp only [LoopOutSel] at h
    split_ifs <;> simpa [apply_ite] using h

theorem negamax_seldepth (fuel : Nat) (refs : SearchRefs) :
    ∀ (st : SearchState) (board : Board) (tt : CacheTable) (pv : List ChessMove)
      (depth : Nat) (alpha beta : Int), st.ply ≤ 255 → st.seldepth ≤ 255 →
      (negamax fuel refs st board tt pv depth alpha beta).state.seldepth ≤ 255 := by
  induction fuel with
  | zero => intro st board tt pv depth alpha beta h1 h2; simpa [negamax] using h2
  | succ fuel ih =>
    intro st board tt pv depth alpha beta h1 h2
    have hcd : ∀ (d : Nat) (s : SearchState) b t p a bb,
        ((fun s b t p a bb => negamax fuel refs s b t p d a bb) s b t p a bb).state.ply
          = s.ply :=
      fun d s b t p a bb => (negamax_pres fuel refs s b t p d a bb).2
    have hcs : ∀ (d : Nat) (s : SearchState) b t p a bb, s.ply ≤ 255 → s.seldepth ≤ 255 →
        ((fun s b t p a bb => negamax fuel refs s b t p d a bb) s b t p a bb).state.seldepth
          ≤ 255 :=
      fun d s b t p a bb hp hs => ih s b t p d a bb hp hs
    rw [negamax]
    dsimp only
    split_ifs <;>
      first
        | contradiction
        | (simp [check_terminate_seldepth]; omega)
        | (refine quiescence_seldepth _ refs _ _ _ _ _ _ ?_ ?_ <;>
            (try simp [check_terminate_ply, check_terminate_seldepth]) <;> omega)
        | (split <;>
            first
              | (simp [check_terminate_seldepth]; omega)
              | (refine negamaxExpand_seldepth _ (hcd _) (hcs _) _ _ _ _ _ _ _ _ _ _ ?_ ?_ <;>
                  · dsimp only
                    have hp2 := check_terminate_ply refs st
                    have hs2 := check_terminate_seldepth refs st
                    omega))

end

end Kychess

namespace Kychess

theorem negamax_ply_guard (fuel : Nat) (refs : SearchRefs) (st : SearchState)
    (board : Board) (tt : CacheTable) (pv : List ChessMove) (depth : Nat)
    (alpha beta : Int) (h1 : Nat.land st.nodes 2047 ≠ 0)
    (h2 : st.terminate = .Nothing) (h3 : st.ply ≥ 255) :
    negamax (fuel + 1) refs st board tt pv depth alpha beta =
      ⟨evaluate_position board, st, board, tt, pv⟩ := by
  rw [negamax]
  dsimp only
  rw [if_neg h1, if_neg (by simp [h2]), if_pos h3]

theorem quiescence_ply_guard (fuel : Nat) (refs : SearchRefs) (st : SearchState)
    (board : Board) (tt : CacheTable) (pv : List ChessMove) (alpha beta : Int)
    (h1 : Nat.land (st.nodes + 1) 2047 ≠ 0) (h2 : st.terminate = .Nothing)
    (h3 : st.ply ≥ 255) :
    quiescence (fuel + 1) refs st board tt pv alpha beta =
      ⟨evaluate_position board, { st with nodes := st.nodes + 1 }, board, tt, pv⟩ := by
  rw [quiescence]
  dsimp only
  rw [if_neg h1, if_neg (by simp [h2]), if_pos h3]

theorem is_draw_iff (b : Board) :
    is_draw b = true ↔
      (countPiece b .white .pawn = 0 ∧ countPiece b .black .pawn = 0 ∧
       countPiece b .white .rook = 0 ∧ countPiece b .black .rook = 0 ∧
       countPiece b .white .queen = 0 ∧ countPiece b .black .queen = 0) ∧
      ((countPiece b .white .bishop ≤ 1 ∧ countPiece b .black .bishop = 0) ∨
       (countPiece b .white .bishop = 0 ∧ countPiece b .black .bishop ≤ 1) ∨
       (countPiece b .white .knight ≤ 1 ∧ countPiece b .black .knight = 0) ∨
       (countPiece b .white .knight = 0 ∧ countPiece b .black .knight ≤ 1)) := by
  unfold is_draw is_insufficient_material
  dsimp only
  split_ifs <;> first | (simp_all; omega) | simp_all

end Kychess

namespace Kychess

theorem mirrorBoard_status (b : Board) : (mirrorBoard b).status = b.status := rfl

theorem mirrorBoard_sideToMove (b : Board) :
    (mirrorBoard b).sideToMove = b.sideToMove.flip := rfl

theorem piece_square_flip (p : PieceTy) (c : Color) (s : Fin 64) (e : Bool) :
    piece_square p c.flip s e = piece_square p c s.rev e := by
  have hs := s.isLt
  cases c <;>
    simp only [piece_square, Color.flip, Fin.val_rev] <;>
    congr 1 <;> omega

theorem squareContribution_mirror (b : Board) (e : Bool) (s : Fin 64) :
    squareContribution (mirrorBoard b) e s = -squareContribution b e s.rev := by
  have hw := piece_square_flip (c := .white) (s := s) (e := e)
  have hb := piece_square_flip (c := .black) (s := s) (e := e)
  simp only [Color.flip] at hw hb
  unfold squareContribution mirrorBoard
  dsimp only
  rcases h : b.pieceOn s.rev with _ | ⟨p, c⟩
  · simp [h]
  · cases c <;> simp [h, hw, hb, Color.flip]

theorem countPiece_mirror (b : Board) (c : Color) (p : PieceTy) :
    countPiece (mirrorBoard b) c p = countPiece b c.flip p := by
  unfold countPiece
  have hcond : ∀ s : Fin 64,
      ((mirrorBoard b).pieceOn s = some (p, c)) ↔ (b.pieceOn s.rev = some (p, c.flip)) := by
    intro s
    show ((b.pieceOn s.rev).map (fun pc => (pc.1, pc.2.flip)) = some (p, c)) ↔ _
    rcases b.pieceOn s.rev with _ | ⟨q, d⟩ <;> simp
    cases d <;> cases c <;> simp [Color.flip]
  calc (∑ s : Fin 64, if (mirrorBoard b).pieceOn s = some (p, c) then 1 else 0)
      = ∑ s : Fin 64, if b.pieceOn s.rev = some (p, c.flip) then 1 else 0 := by
        refine Finset.sum_congr rfl (fun s _ => ?_)
        simp only [hcond]
    _ = ∑ s : Fin 64, if b.pieceOn s = some (p, c.flip) then 1 else 0 :=
        Fin.rev_involutive.bijective.sum_comp
          (fun x => if b.pieceOn x = some (p, c.flip) then 1 else 0)

theorem totalPieceCount_mirror (b : Board) (p : PieceTy) :
    totalPieceCount (mirrorBoard b) p = totalPieceCount b p := by
  unfold totalPieceCount
  rw [countPiece_mirror, countPiece_mirror]
  simp [Color.flip]
  omega

theorem minorPieceCount_mirror (b : Board) (c : Color) :
    minorPieceCount (mirrorBoard b) c = minorPieceCount b c.flip := by
  unfold minorPieceCount
  rw [countPiece_mirror, countPiece_mirror]

theorem is_endgame_mirror (b : Board) : is_endgame (mirrorBoard b) = is_endgame b := by
  unfold is_endgame
  dsimp only
  rw [totalPieceCount_mirror]
  by_cases h : totalPieceCount b .queen = 0
  · rw [if_pos h, if_pos h]
  · rw [if_neg h, if_neg h]
    simp only [countPiece_mirror, minorPieceCount_mirror, Color.flip]
    exact Bool.and_comm _ _

theorem evaluate_position_mirror (b : Board) :
    evaluate_position (mirrorBoard b) = evaluate_position b := by
  unfold evaluate_position
  rw [mirrorBoard_status, mirrorBoard_sideToMove, is_endgame_mirror]
  have hsum : (∑ s : Fin 64, squareContribution (mirrorBoard b) (is_endgame b) s)
      = -∑ s : Fin 64, squareContribution b (is_endgame b) s := by
    calc (∑ s : Fin 64, squareContribution (mirrorBoard b) (is_endgame b) s)
        = ∑ s : Fin 64, -squareContribution b (is_endgame b) s.rev := by
          refine Finset.sum_congr rfl (fun s _ => ?_)
          exact squareContribution_mirror b (is_endgame b) s
      _ = -∑ s : Fin 64, squareContribution b (is_endgame b) s := by
          rw [← Finset.sum_neg_distrib]
          exact Fin.rev_involutive.bijective.sum_comp
            (fun x => -squareContribution b (is_endgame b) x)
  cases hst : b.status <;> cases hstm : b.sideToMove <;>
    simp [Color.flip, hsum]

end Kychess

namespace Kychess

theorem check_terminate_gametime (refs : SearchRefs) (st : SearchState)
    (hmode : refs.search_params.search_mode = .GameTime) (hq : st.queue = [])
    (ht : st.terminate = .Nothing) :
    ((check_terminate refs st).terminate = .Stop ↔
      refs.elapsedAt st.nodes ≥ gameTimeThreshold st.allocated_time) := by
  unfold check_terminate
  rw [hq, hmode]
  dsimp only
  split_ifs with h
  · simp [h]
  · simp [ht, h]

theorem gameTimeThreshold_cases (allocated : Nat) :
    (30000000000 < allocated → gameTimeThreshold allocated = allocated * 2) ∧
    (5000000000 < allocated → allocated ≤ 30000000000 →
      gameTimeThreshold allocated = allocated * 3 / 2) ∧
    (allocated ≤ 5000000000 → gameTimeThreshold allocated = allocated) := by
  unfold gameTimeThreshold
  refine ⟨fun h => ?_, fun h h2 => ?_, fun h => ?_⟩ <;> split_ifs <;> first | rfl | omega

theorem allocateTime_eq (gt : GameTime) (stm : Color) :
    allocateTime gt stm =
      match sideClock gt stm with
      | none => none
      | some clock =>
        if baseTime gt clock + sideIncrement gt stm < 100000000 then none
        else some ((baseTime gt clock + sideIncrement gt stm - 100000000) * 2 / 5) := by
  unfold allocateTime
  rcases sideClock gt stm with _ | clock <;> rfl

theorem cycle_table_get (h : Nat) :
    CacheTable.get cycle_transposition_table h =
      if h = 0 then some SearchData.default else none := by
  unfold cycle_transposition_table CacheTable.new CacheTable.get
  dsimp only
  split_ifs with h1 h2 h3 <;> simp_all

end Kychess

namespace Kychess

theorem SearchData_get_characterization (e : SearchData) (d p : Nat) (alpha beta : Int) :
    (e.depth ≤ d → e.get d p alpha beta = none) ∧
    (d < e.depth → e.flag = .Exact →
      e.get d p alpha beta = some
        (if e.eval > INFINITY / 2 then e.eval - p
         else if e.eval < -(INFINITY / 2) then e.eval + p else e.eval, e.best_move)) ∧
    (d < e.depth → e.flag = .Alpha →
      (e.eval ≤ alpha → e.get d p alpha beta = some (alpha, e.best_move)) ∧
      (alpha < e.eval → e.get d p alpha beta = none)) ∧
    (d < e.depth → e.flag = .Beta →
      (beta ≤ e.eval → e.get d p alpha beta = some (beta, e.best_move)) ∧
      (e.eval < beta → e.get d p alpha beta = none)) ∧
    (e.flag = .Nothing → e.get d p alpha beta = none) := by
  unfold SearchData.get
  dsimp only
  refine ⟨fun h => ?_, fun h hf => ?_, fun h hf => ⟨fun h2 => ?_, fun h2 => ?_⟩,
    fun h hf => ⟨fun h2 => ?_, fun h2 => ?_⟩, fun hf => ?_⟩ <;>
    (try rw [hf]) <;> split_ifs <;> simp_all <;> omega

theorem negamax_root_expand (fuel : Nat) (refs : SearchRefs) (st : SearchState)
    (board : Board) (tt : CacheTable) (pv : List ChessMove) (depth : Nat)
    (alpha beta : Int) (h1 : Nat.land st.nodes 2047 ≠ 0) (h2 : st.terminate = .Nothing)
    (h3 : st.ply = 0)
    (h4 : ¬(if refs.oracle.inCheck board then depth + 1 else depth) = 0) :
    negamax (fuel + 1) refs st board tt pv depth alpha beta =
      negamaxExpand
        (fun s b t p a bb => negamax fuel refs s b t p
          ((if refs.oracle.inCheck board then depth + 1 else depth) - 1) a bb)
        refs.oracle { st with nodes := st.nodes + 1 } board tt pv
        (if refs.oracle.inCheck board then depth + 1 else depth) alpha beta
        (refs.oracle.inCheck board) (refs.oracle.getHash board) := by
  rw [negamax]
  dsimp only
  rw [if_neg h1, if_neg (by simp [h2]), if_neg (by omega), if_neg h4]
  split
  · rw [if_pos h3]
  · rfl

end Kychess


namespace Kychess

section
attribute [local irreducible] is_draw evaluate_position countPiece is_endgame
  check_terminate

theorem quiescenceLoop_congr (child1 child2) (oracle : MoveOracle) (old_board : Board)
    (K : Nat)
    (hcp : ∀ s b t p a bb, (child1 s b t p a bb).state.ply = s.ply)
    (hag : ∀ s b t p a bb, s.ply = K + 1 → child1 s b t p a bb = child2 s b t p a bb) :
    ∀ (ms : List ChessMove) (st : SearchState) (tt : CacheTable) (pv : List ChessMove)
      (alpha beta : Int), st.ply = K →
      quiescenceLoop child1 oracle old_board ms st tt pv alpha beta =
      quiescenceLoop child2 oracle old_board ms st tt pv alpha beta := by
  intro ms
  induction ms with
  | nil => intro st tt pv alpha beta hst; rfl
  | cons legal rest ih =>
    intro st tt pv alpha beta hst
    simp only [quiescenceLoop]
    rw [← hag _ _ _ _ _ _ (by split_ifs <;> simp [hst])]
    split_ifs <;>
      first
        | rfl
        | (apply ih
           simp [hcp, hst])

theorem quiescence_fuel_congr :
    ∀ (f g : Nat) (refs : SearchRefs) (st : SearchState) (board : Board)
      (tt : CacheTable) (pv : List ChessMove) (alpha beta : Int),
      255 - st.ply < f → 255 - st.ply < g →
      quiescence f refs st board tt pv alpha beta =
      quiescence g refs st board tt pv alpha beta := by
  intro f
  induction f with
  | zero => intro g refs st board tt pv alpha beta hf hg; omega
  | succ f ihf =>
    intro g refs st board tt pv alpha beta hf hg
    rcases g with _ | g
    · omega
    · simp only [quiescence]
      split_ifs <;>
        first
          | rfl
          | (refine quiescenceLoop_congr _ _ refs.oracle board _
              (fun s b t p a bb => (quiescence_pres f refs s b t p a bb).2)
              (fun s b t p a bb hs => ihf g refs s b t p a bb ?_ ?_)
              _ _ _ _ _ _ rfl <;>
              · have h3 := check_terminate_ply refs { st with nodes := st.nodes + 1 }
                dsimp only at *
                omega)


theorem negamaxStep_congr (child1 child2) (K : Nat)
    (hcp : ∀ s b t p a bb, (child1 s b t p a bb).state.ply = s.ply)
    (hag : ∀ s b t p a bb, s.ply = K → child1 s b t p a bb = child2 s b t p a bb) :
    ∀ (nb : Board) (st : SearchState) (tt : CacheTable) (alpha beta : Int) (dp : Bool),
      st.ply = K →
      negamaxStep child1 nb st tt alpha beta dp =
      negamaxStep child2 nb st tt alpha beta dp := by
  intro nb st tt alpha beta dp hst
  have h1 : ∀ b t p a bb, child2 st b t p a bb = child1 st b t p a bb :=
    fun b t p a bb => (hag st b t p a bb hst).symm
  have h2 : ∀ b0 t0 p0 a0 bb0 b t p a bb,
      child2 (child1 st b0 t0 p0 a0 bb0).state b t p a bb =
      child1 (child1 st b0 t0 p0 a0 bb0).state b t p a bb :=
    fun b0 t0 p0 a0 bb0 b t p a bb =>
      (hag _ b t p a bb (by rw [hcp]; exact hst)).symm
  unfold negamaxStep
  simp only [h1, h2]

theorem negamaxLoop_congr (child1 child2) (oracle : MoveOracle) (old_pos : Board)
    (position_hash depth : Nat) (K : Nat)
    (hcp : ∀ s b t p a bb, (child1 s b t p a bb).state.ply = s.ply)
    (hag : ∀ s b t p a bb, s.ply = K + 1 → child1 s b t p a bb = child2 s b t p a bb) :
    ∀ (ms : List ChessMove) (st : SearchState) (tt : CacheTable) (pv : List ChessMove)
      (alpha beta best : Int) (bm : Option ChessMove) (flag : HashFlag) (dp : Bool)
      (count : Nat), st.ply = K →
      negamaxLoop child1 oracle old_pos position_hash depth ms st tt pv alpha beta best
        bm flag dp count =
      negamaxLoop child2 oracle old_pos position_hash depth ms st tt pv alpha beta best
        bm flag dp count := by
  intro ms
  induction ms with
  | nil => intro st tt pv alpha beta best bm flag dp count hst; rfl
  | cons legal rest ih =>
    intro st tt pv alpha beta best bm flag dp count hst
    rw [negamaxLoop, negamaxLoop]
    beta_reduce
    dsimp only
    rw [show negamaxStep child2 (oracle.makeMove old_pos legal)
        (if st.ply + 1 > st.seldepth then
          { st with ply := st.ply + 1, seldepth := st.ply + 1 }
         else { st with ply := st.ply + 1 }) tt alpha beta dp =
        negamaxStep child1 (oracle.makeMove old_pos legal)
        (if st.ply + 1 > st.seldepth then
          { st with ply := st.ply + 1, seldepth := st.ply + 1 }
         else { st with ply := st.ply + 1 }) tt alpha beta dp from
      (negamaxStep_congr child1 child2 (K + 1) hcp hag _ _ _ _ _ _
        (by split_ifs <;> simp [hst])).symm]
    split_ifs <;>
      first
        | rfl
        | (apply ih
           simp [negamaxStep_ply child1 hcp, hst])

theorem negamaxExpand_congr (child1 child2) (K : Nat)
    (hcp : ∀ s b t p a bb, (child1 s b t p a bb).state.ply = s.ply)
    (hag : ∀ s b t p a bb, s.ply = K + 1 → child1 s b t p a bb = child2 s b t p a bb) :
    ∀ (oracle : MoveOracle) (st : SearchState) (board : Board) (tt : CacheTable)
      (pv : List ChessMove) (depth : Nat) (alpha beta : Int) (is_check : Bool)
      (position_hash : Nat), st.ply = K →
      negamaxExpand child1 oracle st board tt pv depth alpha beta is_check
        position_hash =
      negamaxExpand child2 oracle st board tt pv depth alpha beta is_check
        position_hash := by
  intro oracle st board tt pv depth alpha beta is_check position_hash hst
  unfold negamaxExpand
  rw [negamaxLoop_congr child1 child2 oracle board position_hash depth K hcp hag
    (negamaxExaminedMoves oracle board) st tt pv alpha beta (-INFINITY - 1) none
    .Alpha false 0 hst]


theorem negamax_fuel_congr :
    ∀ (f g : Nat) (refs : SearchRefs) (st : SearchState) (board : Board)
      (tt : CacheTable) (pv : List ChessMove) (depth : Nat) (alpha beta : Int),
      255 - st.ply < f → 255 - st.ply < g →
      negamax f refs st board tt pv depth alpha beta =
      negamax g refs st board tt pv depth alpha beta := by
  intro f
  induction f with
  | zero => intro g refs st board tt pv depth alpha beta hf hg; omega
  | succ f ihf =>
    intro g refs st board tt pv depth alpha beta hf hg
    rcases g with _ | g
    · omega
    · simp only [negamax]
      split_ifs <;>
        first
          | rfl
          | contradiction
          | (exact quiescence_fuel_congr (f + 1) (g + 1) refs _ board tt pv alpha beta
              (by have h3 := check_terminate_ply refs st; omega)
              (by have h3 := check_terminate_ply refs st; omega))
          | (split <;>
                first
                  | rfl
                  | (refine negamaxExpand_congr _ _ _
                      (fun s b t p a bb => (negamax_pres f refs s b t p _ a bb).2)
                      (fun s b t p a bb hs => ihf g refs s b t p _ a bb ?_ ?_)
                      _ _ board _ pv _ alpha beta _ _ rfl <;>
                      · have h3 := check_terminate_ply refs st
                        (try dsimp only at *)
                        omega))

end

end Kychess

namespace Kychess

/-! ## Claims -/

/-- C1: the claim says depth-1 always completes uninterrupted so the final
best-move extraction never fails.  In the code the very first node of a
cycle satisfies `nodes & 0x7FF == 0`, so a Stop command already pending
when the cycle starts terminates depth 1 before any PV exists; the root PV
stays empty and `best_move.unwrap()` (modelled by the `none` below)
panics, emitting no BestMove at all. -/
theorem claim_C1_pending_stop_aborts_depth1 :
    (iterative_deepening exampleRefsInfinite
      { SearchState.new with queue := [.Stop] } boardKNvK
      cycle_transposition_table).best_move = none ∧
    (iterative_deepening exampleRefsInfinite
      { SearchState.new with queue := [.Stop] } boardKNvK
      cycle_transposition_table).terminate = .Stop :=
  ⟨rfl, rfl⟩

/-- C2 counterexample: a position with king, bishop and two knights against
a bare king.  The code's `is_draw` short-circuits it with score 0 (the
bishop test ignores the knights), but none of the three draw conditions of
the claim holds — White has three minor pieces, and the (empty) history
shows neither repetition nor a fifty-move run. -/
theorem claim_C2_counterexample :
    is_draw boardKBNNvK = true ∧ ¬ specDraw boardKBNNvK 0 [] :=
  ⟨by decide, by decide⟩

/-- C2 amended: the draw test applied to the position after a candidate
move checks only insufficient material, and that test holds exactly when
there are no pawns, rooks or queens and one of the four per-minor-type
conditions of `is_insufficient_material` holds; threefold repetition and
the fifty-move rule are not checked (no history is recorded). -/
theorem claim_C2_amended (b : Board) :
    is_draw b = true ↔
      (countPiece b .white .pawn = 0 ∧ countPiece b .black .pawn = 0 ∧
       countPiece b .white .rook = 0 ∧ countPiece b .black .rook = 0 ∧
       countPiece b .white .queen = 0 ∧ countPiece b .black .queen = 0) ∧
      ((countPiece b .white .bishop ≤ 1 ∧ countPiece b .black .bishop = 0) ∨
       (countPiece b .white .bishop = 0 ∧ countPiece b .black .bishop ≤ 1) ∨
       (countPiece b .white .knight ≤ 1 ∧ countPiece b .black .knight = 0) ∨
       (countPiece b .white .knight = 0 ∧ countPiece b .black .knight ≤ 1)) :=
  is_draw_iff b

/-- C4 counterexample: on a board where the opponent occupies square 8,
the generator yields the quiet move before the capture; negamax examines
exactly that generator order, while the claimed ordering puts the capture
first. -/
theorem claim_C4_counterexample :
    negamaxExaminedMoves exampleOracle boardWithTarget = [quietMove, captureMove] ∧
    specOrderedMoves none boardWithTarget
      (exampleOracle.legalMoves boardWithTarget) = [captureMove, quietMove] ∧
    ([quietMove, captureMove] : List ChessMove) ≠ [captureMove, quietMove] :=
  ⟨rfl, by decide, by decide⟩

/-- C4 amended: Search::negamax examines the legal moves exactly in the
move generator's order, with no PV-move or capture-first reordering;
only quiescence restricts the iteration, to moves whose destination is
occupied by the opponent (in generator order). -/
theorem claim_C4_amended (oracle : MoveOracle) (b : Board) :
    negamaxExaminedMoves oracle b = oracle.legalMoves b ∧
    quiescenceExaminedMoves oracle b =
      (oracle.legalMoves b).filter (fun m => isCaptureOn b m) :=
  ⟨rfl, rfl⟩

/-- C5 counterexample: white king a1, white knight b1, black king a8 is an
ongoing position with evaluation 280 whose colour-flipped mirror also
evaluates to 280, not -280 as the claim requires. -/
theorem claim_C5_counterexample :
    boardKNvK.status = .ongoing ∧
    evaluate_position boardKNvK = 280 ∧
    evaluate_position (mirrorBoard boardKNvK) = 280 ∧
    (280 : Int) ≠ -280 :=
  ⟨rfl, by decide, by decide, by decide⟩

/-- C5 amended: for every position P and its colour-flipped mirror P′,
`evaluate_position P′ = evaluate_position P` — the evaluator already
negates the White-perspective sum for the side to move, so mirroring
preserves the (mover-relative) score instead of negating it. -/
theorem claim_C5_amended (b : Board) :
    evaluate_position (mirrorBoard b) = evaluate_position b :=
  evaluate_position_mirror b

/-- C6 counterexample: the table a cycle starts from does not contain the
entry for hash 1, although a run whose table had persisted from a previous
cycle that stored that entry (in its own bucket, never overwritten) would
return it. -/
theorem claim_C6_counterexample :
    CacheTable.get cycle_transposition_table 1 = none ∧
    CacheTable.get (CacheTable.add cycle_transposition_table 1
      ⟨3, 42, ⟨0, 0, none⟩, .Exact⟩) 1 = some ⟨3, 42, ⟨0, 0, none⟩, .Exact⟩ :=
  ⟨rfl, rfl⟩

/-- C6 amended: the worker constructs a fresh `CacheTable::new(1 << 21,
default)` for every search cycle, so a cycle's initial table never holds
anything but the default entry; transposition entries do not survive from
one cycle to the next. -/
theorem claim_C6_amended :
    (∀ (oracle : MoveOracle) (elapsedAt : Nat → Nat) (sp : SearchParams)
      (board : Board) (queue : List SearchCommand),
      runCycle oracle elapsedAt sp board queue =
        iterative_deepening ⟨oracle, sp, elapsedAt⟩
          { SearchState.new with queue := queue } board cycle_transposition_table) ∧
    (∀ h : Nat, CacheTable.get cycle_transposition_table h =
      if h = 0 then some SearchData.default else none) :=
  ⟨fun _ _ _ _ _ => rfl, cycle_table_get⟩

/-- C7: in GameTime mode, a cancellation check that finds no pending
command sets the terminate flag exactly when the elapsed time has reached
`allocated × overshoot-factor`, where the factor is 2.0 above 30 s of
allocated budget, 1.5 in the (5 s, 30 s] band, and 1.0 at or below 5 s. -/
theorem claim_C7_gametime_overshoot (refs : SearchRefs) (st : SearchState)
    (hmode : refs.search_params.search_mode = .GameTime) (hq : st.queue = [])
    (ht : st.terminate = .Nothing) :
    ((check_terminate refs st).terminate = .Stop ↔
      refs.elapsedAt st.nodes ≥ gameTimeThreshold st.allocated_time) ∧
    (30000000000 < st.allocated_time →
      gameTimeThreshold st.allocated_time = st.allocated_time * 2) ∧
    (5000000000 < st.allocated_time → st.allocated_time ≤ 30000000000 →
      gameTimeThreshold st.allocated_time = st.allocated_time * 3 / 2) ∧
    (st.allocated_time ≤ 5000000000 →
      gameTimeThreshold st.allocated_time = st.allocated_time) :=
  ⟨check_terminate_gametime refs st hmode hq ht, gameTimeThreshold_cases _⟩

theorem claim_C7_witness :
    (check_terminate exampleRefsGameTime exampleStateGameTime).terminate = .Stop ∧
    gameTimeThreshold exampleStateGameTime.allocated_time = 9000000000 := by
  have h := claim_C7_gametime_overshoot exampleRefsGameTime exampleStateGameTime
    rfl rfl rfl
  exact ⟨h.1.mpr (by decide), by
    have h2 := h.2.2.1 (by decide) (by decide)
    simpa using h2⟩

/-- C8: on every return path of negamax and quiescence the shared board
and the ply counter come back exactly as they were at entry — the
make/undo discipline holds unconditionally. -/
theorem claim_C8_make_undo (fuel : Nat) (refs : SearchRefs) (st : SearchState)
    (board : Board) (tt : CacheTable) (pv : List ChessMove) (depth : Nat)
    (alpha beta : Int) :
    ((negamax fuel refs st board tt pv depth alpha beta).board = board ∧
     (negamax fuel refs st board tt pv depth alpha beta).state.ply = st.ply) ∧
    ((quiescence fuel refs st board tt pv alpha beta).board = board ∧
     (quiescence fuel refs st board tt pv alpha beta).state.ply = st.ply) :=
  ⟨negamax_pres fuel refs st board tt pv depth alpha beta,
   quiescence_pres fuel refs st board tt pv alpha beta⟩

end Kychess

namespace Kychess

/-- C3 counterexample: an Exact entry with stored depth 4 is ignored by a
probe at remaining depth 4 (the code requires stored depth strictly
greater, not ≥), and a LowerBound (`Beta`) entry with stored score 50
probed with beta = 40 returns beta, not the stored score. -/
theorem claim_C3_counterexample :
    SearchData.get ⟨4, 10, ⟨0, 0, none⟩, .Exact⟩ 4 0 (-20) 20 = none ∧
    SearchData.get ⟨5, 50, ⟨0, 0, none⟩, .Beta⟩ 4 0 (-20) 40 =
      some (40, ⟨0, 0, none⟩) ∧
    (50 : Int) ≠ 40 :=
  ⟨rfl, rfl, by decide⟩

/-- C3 amended: a TT entry is used only when its stored depth is strictly
greater than the node's remaining depth; an Exact hit returns the stored
score with mate scores re-shifted by the probing ply; a LowerBound
(`Beta`) hit returns beta (not the stored score) exactly when the stored
score is ≥ beta; an UpperBound (`Alpha`) hit returns alpha exactly when
the stored score is ≤ alpha; and at the root (ply 0) negamax expands the
node regardless of what the probe returned. -/
theorem claim_C3_amended :
    (∀ (e : SearchData) (d p : Nat) (alpha beta : Int),
      (e.depth ≤ d → e.get d p alpha beta = none) ∧
      (d < e.depth → e.flag = .Exact →
        e.get d p alpha beta = some
          (if e.eval > INFINITY / 2 then e.eval - p
           else if e.eval < -(INFINITY / 2) then e.eval + p else e.eval, e.best_move)) ∧
      (d < e.depth → e.flag = .Alpha →
        (e.eval ≤ alpha → e.get d p alpha beta = some (alpha, e.best_move)) ∧
        (alpha < e.eval → e.get d p alpha beta = none)) ∧
      (d < e.depth → e.flag = .Beta →
        (beta ≤ e.eval → e.get d p alpha beta = some (beta, e.best_move)) ∧
        (e.eval < beta → e.get d p alpha beta = none)) ∧
      (e.flag = .Nothing → e.get d p alpha beta = none)) ∧
    (∀ (fuel : Nat) (refs : SearchRefs) (st : SearchState) (board : Board)
      (tt : CacheTable) (pv : List ChessMove) (depth : Nat) (alpha beta : Int),
      Nat.land st.nodes 2047 ≠ 0 → st.terminate = .Nothing → st.ply = 0 →
      ¬(if refs.oracle.inCheck board then depth + 1 else depth) = 0 →
      negamax (fuel + 1) refs st board tt pv depth alpha beta =
        negamaxExpand
          (fun s b t p a bb => negamax fuel refs s b t p
            ((if refs.oracle.inCheck board then depth + 1 else depth) - 1) a bb)
          refs.oracle { st with nodes := st.nodes + 1 } board tt pv
          (if refs.oracle.inCheck board then depth + 1 else depth) alpha beta
          (refs.oracle.inCheck board) (refs.oracle.getHash board)) :=
  ⟨SearchData_get_characterization,
   fun fuel refs st board tt pv depth alpha beta h1 h2 h3 h4 =>
     negamax_root_expand fuel refs st board tt pv depth alpha beta h1 h2 h3 h4⟩

theorem claim_C3_amended_witness :
    SearchData.get ⟨5, 10, ⟨0, 0, none⟩, .Exact⟩ 4 7 (-20) 20 =
      some (10, ⟨0, 0, none⟩) ∧
    negamax 1 exampleRefsInfinite { SearchState.new with nodes := 1 } boardWithTarget
        cycle_transposition_table [] 1 0 1 =
      negamaxExpand
        (fun s b t p a bb => negamax 0 exampleRefsInfinite s b t p
          ((if exampleRefsInfinite.oracle.inCheck boardWithTarget then 1 + 1 else 1) - 1)
          a bb)
        exampleRefsInfinite.oracle
        { SearchState.new with nodes := 1 + 1 } boardWithTarget
        cycle_transposition_table []
        (if exampleRefsInfinite.oracle.inCheck boardWithTarget then 1 + 1 else 1) 0 1
        (exampleRefsInfinite.oracle.inCheck boardWithTarget)
        (exampleRefsInfinite.oracle.getHash boardWithTarget) := by
  constructor
  · have h := (claim_C3_amended.1 ⟨5, 10, ⟨0, 0, none⟩, .Exact⟩ 4 7 (-20) 20).2.1
      (by decide) rfl
    simpa using h
  · exact claim_C3_amended.2 0 exampleRefsInfinite
      { SearchState.new with nodes := 1 } boardWithTarget cycle_transposition_table []
      1 0 1 (by decide) rfl rfl (by decide)

/-- C9: both search functions return the static evaluation as soon as the
ply counter has reached the 255 ceiling (when no cancellation is pending
at that node); the selective-depth counter — which records every ply the
search visits — can never exceed 255, so the `u8` ply counter cannot
overflow; and the result is independent of the fuel argument as soon as
the fuel exceeds `255 - ply` (the engine calls with fuel `256` at ply 0),
so the recursion genuinely terminates within the ply ceiling on every
input. -/
theorem claim_C9_ply_ceiling :
    (∀ (fuel : Nat) (refs : SearchRefs) (st : SearchState) (board : Board)
      (tt : CacheTable) (pv : List ChessMove) (depth : Nat) (alpha beta : Int),
      Nat.land st.nodes 2047 ≠ 0 → st.terminate = .Nothing → st.ply ≥ 255 →
      negamax (fuel + 1) refs st board tt pv depth alpha beta =
        ⟨evaluate_position board, st, board, tt, pv⟩) ∧
    (∀ (fuel : Nat) (refs : SearchRefs) (st : SearchState) (board : Board)
      (tt : CacheTable) (pv : List ChessMove) (alpha beta : Int),
      Nat.land (st.nodes + 1) 2047 ≠ 0 → st.terminate = .Nothing → st.ply ≥ 255 →
      quiescence (fuel + 1) refs st board tt pv alpha beta =
        ⟨evaluate_position board, { st with nodes := st.nodes + 1 }, board, tt, pv⟩) ∧
    (∀ (fuel : Nat) (refs : SearchRefs) (st : SearchState) (board : Board)
      (tt : CacheTable) (pv : List ChessMove) (depth : Nat) (alpha beta : Int),
      st.ply ≤ 255 → st.seldepth ≤ 255 →
      (negamax fuel refs st board tt pv depth alpha beta).state.seldepth ≤ 255 ∧
      (quiescence fuel refs st board tt pv alpha beta).state.seldepth ≤ 255) ∧
    (∀ (fuel fuel2 : Nat) (refs : SearchRefs) (st : SearchState) (board : Board)
      (tt : CacheTable) (pv : List ChessMove) (depth : Nat) (alpha beta : Int),
      255 - st.ply < fuel → 255 - st.ply < fuel2 →
      negamax fuel refs st board tt pv depth alpha beta =
        negamax fuel2 refs st board tt pv depth alpha beta ∧
      quiescence fuel refs st board tt pv alpha beta =
        quiescence fuel2 refs st board tt pv alpha beta) :=
  ⟨fun fuel refs st board tt pv depth alpha beta h1 h2 h3 =>
      negamax_ply_guard fuel refs st board tt pv depth alpha beta h1 h2 h3,
   fun fuel refs st board tt pv alpha beta h1 h2 h3 =>
      quiescence_ply_guard fuel refs st board tt pv alpha beta h1 h2 h3,
   fun fuel refs st board tt pv depth alpha beta h1 h2 =>
      ⟨negamax_seldepth fuel refs st board tt pv depth alpha beta h1 h2,
       quiescence_seldepth fuel refs st board tt pv alpha beta h1 h2⟩,
   fun fuel fuel2 refs st board tt pv depth alpha beta h1 h2 =>
      ⟨negamax_fuel_congr fuel fuel2 refs st board tt pv depth alpha beta h1 h2,
       quiescence_fuel_congr fuel fuel2 refs st board tt pv alpha beta h1 h2⟩⟩

theorem claim_C9_witness :
    negamax 1 exampleRefsInfinite exampleStateCeiling boardKNvK
        cycle_transposition_table [] 3 (-5) 5 =
      ⟨evaluate_position boardKNvK, exampleStateCeiling, boardKNvK,
        cycle_transposition_table, []⟩ ∧
    (negamax 7 exampleRefsInfinite exampleStateCeiling boardKNvK
        cycle_transposition_table [] 3 (-5) 5).state.seldepth ≤ 255 ∧
    negamax 256 exampleRefsInfinite SearchState.new boardKNvK
        cycle_transposition_table [] 2 (-5) 5 =
      negamax 300 exampleRefsInfinite SearchState.new boardKNvK
        cycle_transposition_table [] 2 (-5) 5 := by
  refine ⟨?_, ?_, ?_⟩
  · exact claim_C9_ply_ceiling.1 0 exampleRefsInfinite exampleStateCeiling boardKNvK
      cycle_transposition_table [] 3 (-5) 5 (by decide) rfl (by decide)
  · exact (claim_C9_ply_ceiling.2.2.1 7 exampleRefsInfinite exampleStateCeiling boardKNvK
      cycle_transposition_table [] 3 (-5) 5 (by decide) (by decide)).1
  · exact (claim_C9_ply_ceiling.2.2.2 256 300 exampleRefsInfinite SearchState.new
      boardKNvK cycle_transposition_table [] 2 (-5) 5 (by decide) (by decide)).1

/-- C10: the GameTime allocation step panics exactly when the side to
move's clock field is absent or when `base_time + increment` is below the
100 ms safety margin (unsigned Duration underflow); otherwise it computes
`(base_time + increment - 100ms) * 0.4` (modelled exactly), with
`base_time` = clock when moves-to-go is 0, clock/moves-to-go when
positive, and clock/20 when absent. -/
theorem claim_C10_allocation (gt : GameTime) (stm : Color) :
    (sideClock gt stm = none → allocateTime gt stm = none) ∧
    (∀ clock, sideClock gt stm = some clock →
      (baseTime gt clock + sideIncrement gt stm < 100000000 →
        allocateTime gt stm = none) ∧
      (100000000 ≤ baseTime gt clock + sideIncrement gt stm →
        allocateTime gt stm =
          some ((baseTime gt clock + sideIncrement gt stm - 100000000) * 2 / 5))) := by
  refine ⟨fun h => ?_, fun clock hc => ⟨fun h => ?_, fun h => ?_⟩⟩ <;>
    rw [allocateTime_eq]
  · rw [h]
  · rw [hc]
    exact if_pos h
  · rw [hc]
    dsimp only
    rw [if_neg (by omega)]

theorem claim_C10_witness :
    allocateTime exampleGameTime .white = some 80000000 ∧
    allocateTime { exampleGameTime with white_time := none } .white = none ∧
    allocateTime ⟨some 50000000, none, none, none, some 1⟩ .white = none := by
  refine ⟨?_, ?_, ?_⟩
  · have h := (claim_C10_allocation exampleGameTime .white).2 2000000000 rfl
    have h2 := h.2 (by decide)
    exact h2.trans (by decide)
  · exact (claim_C10_allocation { exampleGameTime with white_time := none } .white).1 rfl
  · have h := (claim_C10_allocation ⟨some 50000000, none, none, none, some 1⟩ .white).2
      50000000 rfl
    exact h.1 (by decide)

end Kychess

